import Mathlib

/-!
Verification of the quic-test repository: the FEC receive path of
`server/server.go`, the spec-modelled `internal/fec` decoder, server metric
accounting, CLI and GUI configuration handling, the GUI test manager's
`StopTest`, the decoder cleanup loop, and the BBR-family congestion phase
machine, as a shallow embedding in Lean 4.

Byte sequences are modelled as `List Nat` of byte values; `Nat.xor` of two
values below 256 stays below 256, so no modular reduction is needed in the
byte-wise parity arithmetic.  Go's `int`/`int64` counters are modelled as
`Nat`: every mutation in the modelled code is an increment by a non-negative
amount, many orders of magnitude away from 64-bit wrap-around.
-/

set_option maxHeartbeats 1000000

namespace QuicTest

namespace Fec

/-- Byte-wise XOR of two byte sequences.  The shorter operand is implicitly
zero-padded to the length of the longer one, mirroring how the single-parity
scheme zero-pads payloads to the longest payload of the group. -/
def xorBytes : List Nat → List Nat → List Nat
  | [], b => b
  | a, [] => a
  | x :: a, y :: b => (x ^^^ y) :: xorBytes a b

/-- XOR-accumulation of a list of payloads, starting from the empty payload.
This is the single-parity (R = 1) redundancy computation of §4.1: the XOR of
all payloads of the group, zero-padded to the longest payload. -/
def xorSum (l : List (List Nat)) : List Nat := l.foldl xorBytes []

/-- Received data slots of a single FEC group: an association list from
packet_id to the recorded payload. -/
abbrev GroupData := List (Nat × List Nat)

/-- Modelled from the spec: `FECDecoder.AddPacket` of package `internal/fec`,
which is not present in the repository snapshot (only its caller
`server.handleStream` is).  Per §4.2 it is non-blocking and records the
arrival of data packet `pid`; a slot that is already filled is left as is. -/
def addPacket (g : GroupData) (pid : Nat) (payload : List Nat) : GroupData :=
  if (g.lookup pid).isSome then g else (pid, payload) :: g

/-- Parsed redundancy packet, per the §6 wire framing: after the 2-byte type
marker come group_id, parity_index, k, r, the per-packet payload length table
and the parity payload. -/
structure RedundancyPacket where
  groupId : Nat
  parityIndex : Nat
  k : Nat
  r : Nat
  lenTable : List Nat
  parityPayload : List Nat
  deriving Repr, DecidableEq

/-- Modelled from the spec: `FECDecoder.AddRedundancyPacket` of package
`internal/fec`, which is not present in the repository snapshot.  Per §4.2
the group is recoverable iff exactly one data slot is missing, in which case
the missing payload is the XOR of the parity and all present data payloads,
truncated to the length recorded for that slot in the header's length
table. -/
def addRedundancyPacket (g : GroupData) (p : RedundancyPacket) :
    Bool × List (Nat × List Nat) :=
  match (List.range p.k).filter (fun q => (g.lookup q).isNone) with
  | [pid] =>
    let raw := ((List.range p.k).filterMap (fun q => g.lookup q)).foldl
      xorBytes p.parityPayload
    (true, [(pid, raw.take (p.lenTable.getD pid 0))])
  | _ => (false, [])

/-- Modelled from the spec: the single-parity (R = 1) redundancy packet the
`FECEncoder` of §4.1 emits for a full group with payload list `ps`: parity is
the XOR of all payloads zero-padded to the longest, and the header records
each packet's payload length so truncation on recovery is exact. -/
def encodeRedundancy (gid : Nat) (ps : List (List Nat)) : RedundancyPacket :=
  { groupId := gid
    parityIndex := 0
    k := ps.length
    r := 1
    lenTable := ps.map List.length
    parityPayload := xorSum ps }

/-- A group's bookkeeping entry in the decoder's table: creation time (in
seconds), its received data slots, any stored parity, and whether the group
completed.  Modelled from the spec (§3 Group). -/
structure GroupEntry where
  createdAt : Nat
  dataSlots : GroupData
  parity : Option (List Nat)
  complete : Bool
  deriving Repr, DecidableEq

/-- Modelled from the spec: `FECDecoder.CleanupGroups` of package
`internal/fec`, which is not present in the repository snapshot.  Per §4.2 it
evicts every group older than the fixed retention window, regardless of the
group's completion state; `window` is the retention window and `now` the
invocation time, both in seconds. -/
def cleanupGroups (window now : Nat) (tbl : List (Nat × GroupEntry)) :
    List (Nat × GroupEntry) :=
  tbl.filter (fun g => now - g.2.createdAt ≤ window)

end Fec

namespace Server

/-- How `handleStream` (server.go:116-164) routes one buffer returned by
`stream.Read`: a buffer of at least 11 bytes whose first two bytes are
`0xFE 0xC0` goes to `FECDecoder.AddRedundancyPacket`; any other non-empty
buffer is counted and goes to `FECDecoder.AddPacket`; a zero-byte read is
not processed. -/
inductive Route where
  | repair
  | data
  | skipped
  deriving Repr, DecidableEq

/-- The branch structure of server.go:123-153: `n > 0`, then
`n >= 11 && buf[0] == 0xFE && buf[1] == 0xC0`. -/
def classifyBuffer (buf : List Nat) : Route :=
  if 0 < buf.length then
    if 11 ≤ buf.length ∧ buf.getD 0 0 = 0xFE ∧ buf.getD 1 0 = 0xC0 then
      Route.repair
    else
      Route.data
  else
    Route.skipped

/-- The per-stream FEC counters of `handleStream` (server.go:118-119):
`packetID` and `groupID`, both starting at zero. -/
structure StreamFec where
  packetID : Nat
  groupID : Nat
  deriving Repr, DecidableEq

def streamFecInit : StreamFec := ⟨0, 0⟩

/-- One iteration of `handleStream`'s read loop, restricted to the FEC
bookkeeping (server.go:121-153): a data-classified buffer is handed to
`AddPacket` together with the current `packetID`/`groupID`, after which
`packetID` is incremented and, on reaching 10, reset to zero with `groupID`
incremented.  Repair buffers and empty reads leave the counters untouched.
The second component is the `(payload, packet_id, group_id)` argument triple
of the `AddPacket` call this iteration makes, if any. -/
def streamFecStep (s : StreamFec) (buf : List Nat) :
    StreamFec × Option (List Nat × Nat × Nat) :=
  match classifyBuffer buf with
  | Route.data =>
    let call := (buf, s.packetID, s.groupID)
    let p := s.packetID + 1
    if 10 ≤ p then (⟨0, s.groupID + 1⟩, some call)
    else (⟨p, s.groupID⟩, some call)
  | _ => (s, none)

/-- The `(packet_id, group_id)` argument pairs of the successive `AddPacket`
calls `handleStream` makes while reading the buffers `bufs` from counter
state `s`. -/
def addPacketCalls (s : StreamFec) : List (List Nat) → List (Nat × Nat)
  | [] => []
  | buf :: bufs =>
    match streamFecStep s buf with
    | (s', some (_, pid, gid)) => (pid, gid) :: addPacketCalls s' bufs
    | (s', none) => addPacketCalls s' bufs

/-- The number of data-classified buffers in a read sequence. -/
def dataCount (bufs : List (List Nat)) : Nat :=
  (bufs.filter (fun b => classifyBuffer b == Route.data)).length

/-- Big-endian interpretation of a byte sequence as a natural number. -/
def beNat (bs : List Nat) : Nat := bs.foldl (fun acc b => acc * 256 + b) 0

/-- Modelled from the spec: the group_id field (u64, first 8 bytes) of the §6
data-packet wire framing `{group_id: u64, packet_index: u16, payload}` — the
sender-side framing code is not in the repository snapshot; byte order is
chosen big-endian. -/
def dataFrameGroupId (buf : List Nat) : Nat := beNat (buf.take 8)

/-- Modelled from the spec: the packet_index field (u16, bytes 8-9) of the §6
data-packet wire framing. -/
def dataFramePacketIndex (buf : List Nat) : Nat := beNat ((buf.drop 8).take 2)

/-- The server metric counters of `serverMetrics` (server.go:23-32). -/
structure Metrics where
  connections : Nat
  streams : Nat
  bytes : Nat
  errors : Nat
  deriving Repr, DecidableEq

/-- One metrics-relevant event of the server's accept loop (server.go:75-89),
per-connection stream loop (server.go:95-114) and per-stream read loop
(server.go:116-163).  `readRepair` carries the payload list the FEC decoder
reports as recovered for a repair-classified buffer — `handleStream` adds
each recovered payload's length to `Bytes`; `readData` is a data-classified
read of `n` bytes; `readErr` is a stream read error, which increments
`Errors` unless the error is `EOF`. -/
inductive Event where
  | acceptOk
  | acceptErr
  | streamOk
  | streamErr
  | readRepair (recovered : List (List Nat))
  | readData (n : Nat)
  | readErr (eof : Bool)

/-- The metric mutations of server.go: accepting a connection increments
`Connections` (line 85); a failed accept increments `Errors` (line 80);
accepting a stream increments `Streams` (line 110); a failed stream accept
increments `Errors` (line 105); recovered repair payloads and data reads add
their byte counts to `Bytes` (lines 133, 141); a non-EOF read error
increments `Errors` (line 158). -/
def metricsStep (m : Metrics) : Event → Metrics
  | Event.acceptOk => { m with connections := m.connections + 1 }
  | Event.acceptErr => { m with errors := m.errors + 1 }
  | Event.streamOk => { m with streams := m.streams + 1 }
  | Event.streamErr => { m with errors := m.errors + 1 }
  | Event.readRepair recovered =>
      { m with bytes := m.bytes + (recovered.map List.length).sum }
  | Event.readData n => { m with bytes := m.bytes + n }
  | Event.readErr eof => if eof then m else { m with errors := m.errors + 1 }

/-- The cleanup goroutine's ticker interval of server.go:43: one second. -/
def cleanupIntervalSeconds : Nat := 1

/-- The decoder group table after `n` fires of the server's cleanup ticker
(server.go:42-50), the `t`-th fire happening at `t * cleanupIntervalSeconds`
seconds: the groups arriving between consecutive fires (`arrivals t`) are
added to the table, and every fire runs `CleanupGroups`. -/
def cleanupRun (window : Nat) (arrivals : Nat → List (Nat × Fec.GroupEntry)) :
    Nat → List (Nat × Fec.GroupEntry)
  | 0 => []
  | n + 1 => Fec.cleanupGroups window ((n + 1) * cleanupIntervalSeconds)
      (arrivals n ++ cleanupRun window arrivals n)

end Server

namespace Bbr

/-- Modelled from the spec: the §4.3 BBR-family congestion phase set; the
congestion controller implementation is not in the repository snapshot. -/
inductive Phase where
  | startup
  | drain
  | probeBW
  | probeRTT
  deriving Repr, DecidableEq

/-- Modelled from the spec: the §4.3 transition table
`Startup → Drain → ProbeBW ⇄ ProbeRTT`, together with the §4.3 stall-timeout
rule that forces any phase to ProbeRTT when no samples arrive. -/
def phaseStep : Phase → Phase → Bool
  | Phase.startup, Phase.drain => true
  | Phase.drain, Phase.probeBW => true
  | Phase.probeRTT, Phase.probeBW => true
  | _, Phase.probeRTT => true
  | _, _ => false

/-- Multi-step reachability in the phase machine. -/
inductive Reaches : Phase → Phase → Prop where
  | refl (p : Phase) : Reaches p p
  | step {p q r : Phase} : phaseStep p q = true → Reaches q r → Reaches p r

end Bbr

namespace Cli

/-- The CLI flag values read by `main` (src/unnamed/part_001) that determine
the startup control flow relevant to configuration validation.  The two
float64 flags are modelled as rationals; `main` never inspects their values
beyond the equality test against the 0.10 default. -/
structure Flags where
  version : Bool
  mode : String
  listScenarios : Bool
  listProfiles : Bool
  scenario : String
  networkProfile : String
  cc : String
  fecEnabled : Bool
  fecEnabledAlias : Bool
  fecRate : ℚ
  fecRedundancyAlias : ℚ
  deriving Repr, DecidableEq

/-- The fields of `internal.TestConfig` that C5 concerns. -/
structure Config where
  mode : String
  congestionControl : String
  fecEnabled : Bool
  fecRedundancy : ℚ
  deriving Repr, DecidableEq

/-- The config construction of `main` (src/unnamed/part_001 lines 91-136):
`FECEnabled` is the disjunction of the two flags; `FECRedundancy` prefers the
alias flag when it differs from the 0.10 default, else the primary flag, and
is 0 when FEC is disabled.  No range or algorithm validation is performed. -/
def buildConfig (f : Flags) : Config :=
  { mode := f.mode
    congestionControl := f.cc
    fecEnabled := f.fecEnabled || f.fecEnabledAlias
    fecRedundancy :=
      if f.fecEnabled || f.fecEnabledAlias then
        if f.fecRedundancyAlias ≠ (1 / 10 : ℚ) then f.fecRedundancyAlias
        else f.fecRate
      else 0 }

/-- Where `main` ends up.  `scenarioPath`/`profilePath` mark the branches
that continue with a configuration produced by `internal.GetScenario` /
`ApplyNetworkProfile`, code not in the snapshot; C5 is settled on runs that
do not take them. -/
inductive Outcome where
  | exitVersion
  | exitListScenarios
  | exitListProfiles
  | scenarioPath
  | profilePath
  | runServer (cfg : Config)
  | runClient (cfg : Config)
  | runTest (cfg : Config)
  | exitUnknownMode
  deriving Repr, DecidableEq

/-- The control flow of `main` (src/unnamed/part_001 lines 86-241): version
print, scenario/profile listing, scenario/profile application, then the mode
switch dispatching to `server.Run`, `client.Run` or `runTestMode` — with no
validation of the FEC redundancy fraction or congestion-control algorithm on
the way. -/
def mainDispatch (f : Flags) : Outcome :=
  if f.version then Outcome.exitVersion
  else if f.listScenarios then Outcome.exitListScenarios
  else if f.listProfiles then Outcome.exitListProfiles
  else if f.scenario ≠ "" then Outcome.scenarioPath
  else if f.networkProfile ≠ "" then Outcome.profilePath
  else
    let cfg := buildConfig f
    if cfg.mode = "server" then Outcome.runServer cfg
    else if cfg.mode = "client" then Outcome.runClient cfg
    else if cfg.mode = "test" then Outcome.runTest cfg
    else Outcome.exitUnknownMode

/-- Membership in the §6 congestion-control enum
`{cubic, bbr, bbrv2, bbrv3, reno}`. -/
def validCC (s : String) : Bool :=
  s = "cubic" || s = "bbr" || s = "bbrv2" || s = "bbrv3" || s = "reno"

/-- The §6 redundancy-fraction range `[0.05, 0.20]`. -/
def redundancyInRange (q : ℚ) : Bool :=
  decide ((1 / 20 : ℚ) ≤ q) && decide (q ≤ (1 / 5 : ℚ))

end Cli

namespace Gui

/-- Modelled from the spec: `internal.TestConfig.Validate` — the `internal`
package's validation is not in the repository snapshot, only its call site
`handleCreateTest` (api_server.go:163-167) is.  Per §7 an invalid redundancy
fraction or unknown congestion-control algorithm is a ConfigError. -/
def validateConfig (cc : String) (fecRedundancy : ℚ) : Bool :=
  Cli.validCC cc && Cli.redundancyInRange fecRedundancy

/-- Outcome of `handleCreateTest` (api_server.go:149-172) after the JSON body
parsed: an invalid configuration is answered with HTTP 400 and no test
session starts; otherwise `StartTest` launches a session. -/
inductive CreateTestResult where
  | badRequest
  | started
  deriving Repr, DecidableEq

def handleCreateTestDecision (cc : String) (fecRedundancy : ℚ) :
    CreateTestResult :=
  if validateConfig cc fecRedundancy then CreateTestResult.started
  else CreateTestResult.badRequest

/-- The `TestSession` fields `StopTest` touches (part_002 lines 1166-1175):
status, optional end time (seconds), log lines. -/
structure Session where
  status : String
  endTime : Option Nat
  logs : List String
  deriving Repr, DecidableEq

/-- `addLog` (test_manager.go:257-268): append the entry, keep the last 100
log lines.  The wall-clock timestamp prefix is abstracted into the entry. -/
def addLog (logs : List String) (entry : String) : List String :=
  let l := logs ++ [entry]
  if 100 < l.length then l.drop (l.length - 100) else l

/-- `StopTest` (test_manager.go:37-59): look the session up; report an error
when it is absent or not running, leaving the table untouched; otherwise set
its status to "stopped", record the end time and log the stop.  The second
component is the returned error, if any. -/
def stopTest (now : Nat) (tbl : List (String × Session)) (testID : String) :
    List (String × Session) × Option String :=
  match tbl.lookup testID with
  | none => (tbl, some ("test not found: " ++ testID))
  | some s =>
    if s.status ≠ "running" then
      (tbl, some ("test is not running: " ++ testID))
    else
      (tbl.map (fun p => if p.1 = testID then
          (p.1, { status := "stopped", endTime := some now,
                  logs := addLog p.2.logs "Test stopped by user" }) else p),
       none)

end Gui

namespace Fec

@[simp] theorem xorBytes_nil_left (b : List Nat) : xorBytes [] b = b := by
  cases b <;> rfl

@[simp] theorem xorBytes_nil_right (a : List Nat) : xorBytes a [] = a := by
  cases a <;> rfl

theorem xorBytes_comm : ∀ a b : List Nat, xorBytes a b = xorBytes b a
  | [], b => by simp
  | a, [] => by simp
  | x :: a, y :: b => by
    simp only [xorBytes]
    rw [Nat.xor_comm x y, xorBytes_comm a b]

theorem xorBytes_assoc :
    ∀ a b c : List Nat, xorBytes (xorBytes a b) c = xorBytes a (xorBytes b c)
  | [], b, c => by simp
  | a, [], c => by simp
  | a, b, [] => by simp
  | x :: a, y :: b, z :: c => by
    simp only [xorBytes]
    rw [Nat.xor_assoc, xorBytes_assoc a b c]

theorem xorBytes_self : ∀ a : List Nat, xorBytes a a = List.replicate a.length 0
  | [] => rfl
  | x :: a => by
    simp only [xorBytes, Nat.xor_self, List.length_cons, List.replicate_succ]
    rw [xorBytes_self a]

theorem take_xorBytes_replicate :
    ∀ (a : List Nat) (n : Nat), (xorBytes a (List.replicate n 0)).take a.length = a
  | [], n => by simp
  | x :: a, 0 => by simp [List.take_length]
  | x :: a, n + 1 => by
    simp only [List.replicate_succ, xorBytes, Nat.xor_zero, List.length_cons,
      List.take_succ_cons]
    rw [take_xorBytes_replicate a n]

theorem foldl_xorBytes_shift :
    ∀ (l : List (List Nat)) (a b : List Nat),
      l.foldl xorBytes (xorBytes a b) = xorBytes a (l.foldl xorBytes b)
  | [], a, b => rfl
  | c :: l, a, b => by
    simp only [List.foldl_cons, xorBytes_assoc]
    exact foldl_xorBytes_shift l a (xorBytes b c)

theorem foldl_xorBytes (l : List (List Nat)) (a : List Nat) :
    l.foldl xorBytes a = xorBytes a (xorSum l) := by
  have h := foldl_xorBytes_shift l a []
  simpa [xorSum] using h

theorem xorSum_cons (x : List Nat) (l : List (List Nat)) :
    xorSum (x :: l) = xorBytes x (xorSum l) := by
  simp only [xorSum, List.foldl_cons, xorBytes_nil_left]
  exact foldl_xorBytes l x

theorem xorSum_perm {l₁ l₂ : List (List Nat)} (h : l₁.Perm l₂) :
    xorSum l₁ = xorSum l₂ := by
  induction h with
  | nil => rfl
  | cons x _ ih => rw [xorSum_cons, xorSum_cons, ih]
  | swap x y l =>
    rw [xorSum_cons, xorSum_cons, xorSum_cons, xorSum_cons,
      ← xorBytes_assoc, ← xorBytes_assoc, xorBytes_comm x y]
  | trans _ _ ih₁ ih₂ => rw [ih₁, ih₂]

theorem lookup_map_key (f : Nat → List Nat) :
    ∀ (mask : List Nat) (q : Nat),
      (mask.map (fun k => (k, f k))).lookup q
        = if q ∈ mask then some (f q) else none
  | [], q => by simp [List.lookup]
  | m :: mask, q => by
    by_cases h : q = m
    · subst h
      simp [List.lookup]
    · have hb : (q == m) = false := by simp [h]
      simp only [List.map_cons, List.lookup, hb, List.mem_cons]
      rw [lookup_map_key f mask q]
      by_cases hq : q ∈ mask
      · simp [hq]
      · simp [hq, h]

theorem lookup_perm :
    ∀ {l₁ l₂ : List (Nat × List Nat)}, l₁.Perm l₂ →
      (l₁.map Prod.fst).Nodup → ∀ q : Nat, l₁.lookup q = l₂.lookup q := by
  intro l₁ l₂ h
  induction h with
  | nil => intro _ _; rfl
  | cons x _ ih =>
    intro nd q
    obtain ⟨a, v⟩ := x
    simp only [List.map_cons, List.nodup_cons] at nd
    by_cases hq : q = a
    · subst hq; simp [List.lookup]
    · have hb : (q == a) = false := by simp [hq]
      simp only [List.lookup, hb]
      exact ih nd.2 q
  | swap x y l =>
    intro nd q
    obtain ⟨a, va⟩ := x
    obtain ⟨b, vb⟩ := y
    simp only [List.map_cons, List.nodup_cons, List.mem_cons] at nd
    have hba : b ≠ a := fun h => nd.1 (Or.inl h)
    have hba' : (b == a) = false := by simp [hba]
    have hab : a ≠ b := fun h => hba h.symm
    have hab' : (a == b) = false := by simp [hab]
    by_cases hqb : q = b
    · have hb : (q == a) = false := by simp [hqb, hba]
      simp [List.lookup, hqb, hb, hba']
    · by_cases hqa : q = a
      · have hb : (q == b) = false := by simp [hqb]
        simp [List.lookup, hqa, hb, hab']
      · have h₁ : (q == b) = false := by simp [hqb]
        have h₂ : (q == a) = false := by simp [hqa]
        simp [List.lookup, h₁, h₂]
  | trans h₁ _ ih₁ ih₂ =>
    intro nd q
    rw [ih₁ nd q]
    exact ih₂ ((h₁.map Prod.fst).nodup_iff.mp nd) q

theorem foldl_addPacket_fresh :
    ∀ (l : List (Nat × List Nat)) (g : GroupData),
      (∀ p ∈ l, g.lookup p.1 = none) → (l.map Prod.fst).Nodup →
      l.foldl (fun g pr => addPacket g pr.1 pr.2) g = l.reverse ++ g
  | [], g, _, _ => by simp
  | (k, v) :: rest, g, hfresh, hnd => by
    simp only [List.foldl_cons]
    have hk : g.lookup k = none := hfresh (k, v) (List.mem_cons_self _ _)
    have hstep : addPacket g k v = (k, v) :: g := by
      simp [addPacket, hk]
    rw [hstep]
    simp only [List.map_cons, List.nodup_cons] at hnd
    have hfresh' : ∀ p ∈ rest, ((k, v) :: g).lookup p.1 = none := by
      intro p hp
      have hne : p.1 ≠ k := fun h => hnd.1 (h ▸ List.mem_map_of_mem Prod.fst hp)
      have hb : (p.1 == k) = false := by simp [hne]
      simp only [List.lookup, hb]
      exact hfresh p (List.mem_cons_of_mem _ hp)
    rw [foldl_addPacket_fresh rest ((k, v) :: g) hfresh' hnd.2]
    simp [List.reverse_cons, List.append_assoc]

theorem lookup_group_built (pres order : List (Nat × List Nat))
    (hnd : (pres.map Prod.fst).Nodup) (hperm : order.Perm pres) (q : Nat) :
    (order.foldl (fun g pr => addPacket g pr.1 pr.2) []).lookup q
      = pres.lookup q := by
  have ndo : (order.map Prod.fst).Nodup := (hperm.map Prod.fst).nodup_iff.mpr hnd
  have hfold := foldl_addPacket_fresh order [] (fun p _ => rfl) ndo
  rw [hfold, List.append_nil]
  have ndr : (order.reverse.map Prod.fst).Nodup := by
    rw [List.map_reverse]
    exact List.nodup_reverse.mpr ndo
  exact lookup_perm ((List.reverse_perm order).trans hperm) ndr q

theorem filter_beq_range :
    ∀ K i : Nat, (List.range K).filter (fun q => q == i)
      = if i < K then [i] else []
  | 0, i => by simp
  | K + 1, i => by
    rw [List.range_succ, List.filter_append, filter_beq_range K i]
    by_cases h : i < K
    · have hne : K ≠ i := Nat.ne_of_gt h
      have hb : (K == i) = false := by simp [hne]
      simp [h, Nat.lt_succ_of_lt h, hb]
    · by_cases h2 : i = K
      · subst h2
        simp [h, Nat.lt_succ_self]
      · have h3 : ¬ i < K + 1 := by omega
        have hne : K ≠ i := fun hh => h2 hh.symm
        have hb : (K == i) = false := by simp [hne]
        simp [h, h3, hb]

theorem filterMap_if_mem (g0 : Nat → List Nat) (mask : List Nat) :
    ∀ xs : List Nat,
      xs.filterMap (fun q => if q ∈ mask then some (g0 q) else none)
        = (xs.filter (fun q => decide (q ∈ mask))).map g0
  | [] => rfl
  | x :: xs => by
    by_cases h : x ∈ mask
    · simp [List.filterMap_cons, List.filter_cons, h, filterMap_if_mem g0 mask xs]
    · simp [List.filterMap_cons, List.filter_cons, h, filterMap_if_mem g0 mask xs]

theorem filter_mem_filter (p : Nat → Bool) (K : Nat) :
    (List.range K).filter (fun q => decide (q ∈ (List.range K).filter p))
      = (List.range K).filter p := by
  apply List.filter_congr
  intro q hq
  simp [List.mem_filter, hq]

theorem range_map_getD :
    ∀ ps : List (List Nat),
      (List.range ps.length).map (fun q => ps.getD q []) = ps
  | [] => rfl
  | x :: ps => by
    rw [List.length_cons, List.range_succ_eq_map, List.map_cons, List.map_map]
    have hc : ((fun q => (x :: ps).getD q []) ∘ Nat.succ)
        = fun q => ps.getD q [] := by
      funext q
      simp [Function.comp, List.getD_cons_succ]
    rw [List.getD_cons_zero, hc, range_map_getD ps]

theorem getD_map_length :
    ∀ (ps : List (List Nat)) (i : Nat), i < ps.length →
      (ps.map List.length).getD i 0 = (ps.getD i []).length
  | [], i, h => by simp at h
  | x :: ps, 0, _ => rfl
  | x :: ps, i + 1, h => by
    have hi : i < ps.length := by
      simp only [List.length_cons] at h
      omega
    simpa using getD_map_length ps i hi

theorem range_perm_cons_filter {K i : Nat} (hi : i < K) :
    (List.range K).Perm (i :: (List.range K).filter (fun q => q != i)) := by
  have hmem : i ∈ List.range K := List.mem_range.mpr hi
  have h₁ := List.perm_cons_erase hmem
  rwa [(List.nodup_range K).erase_eq_filter i] at h₁

theorem xorSum_split (ps : List (List Nat)) {i : Nat} (hi : i < ps.length) :
    xorSum ps = xorBytes (ps.getD i [])
      (xorSum (((List.range ps.length).filter (fun q => q != i)).map
        (fun q => ps.getD q []))) := by
  conv_lhs => rw [← range_map_getD ps]
  rw [xorSum_perm ((range_perm_cons_filter hi).map (fun q => ps.getD q [])),
    List.map_cons, xorSum_cons]

theorem addRedundancyPacket_single (g : GroupData) (p : RedundancyPacket)
    {i : Nat}
    (hm : (List.range p.k).filter (fun q => (g.lookup q).isNone) = [i]) :
    addRedundancyPacket g p
      = (true, [(i, (((List.range p.k).filterMap (fun q => g.lookup q)).foldl
          xorBytes p.parityPayload).take (p.lenTable.getD i 0))]) := by
  unfold addRedundancyPacket
  rw [hm]

theorem addRedundancyPacket_not_single (g : GroupData) (p : RedundancyPacket)
    (hm : ((List.range p.k).filter (fun q => (g.lookup q).isNone)).length ≠ 1) :
    addRedundancyPacket g p = (false, []) := by
  unfold addRedundancyPacket
  rcases hl : (List.range p.k).filter (fun q => (g.lookup q).isNone) with
    _ | ⟨x, _ | ⟨y, rest⟩⟩
  · rfl
  · rw [hl] at hm
    simp at hm
  · rfl

end Fec

/-- C1: for an FEC group of `ps.length` data packets plus one single-parity
redundancy packet, if exactly the data packet with index `i` is dropped and
every other data packet of the group is delivered to the decoder (in any
order), then `AddRedundancyPacket` returns `recovered = true` and the
recovered payload is byte-for-byte equal to the dropped packet's payload —
the XOR of the parity payload and all present data payloads, truncated to
the length recorded for slot `i` in the redundancy header's length table. -/
theorem fec_single_loss_recovered
    (ps : List (List Nat)) (i gid : Nat) (hi : i < ps.length)
    (order : List (Nat × List Nat))
    (hperm : order.Perm
      (((List.range ps.length).filter (fun q => q != i)).map
        (fun q => (q, ps.getD q [])))) :
    Fec.addRedundancyPacket
      (order.foldl (fun g pr => Fec.addPacket g pr.1 pr.2) [])
      (Fec.encodeRedundancy gid ps)
    = (true, [(i, ps.getD i [])]) := by
  have hnodmask : ((List.range ps.length).filter (fun q => q != i)).Nodup :=
    (List.nodup_range ps.length).filter _
  have hkeys : ((((List.range ps.length).filter (fun q => q != i)).map
      (fun q => (q, ps.getD q []))).map Prod.fst)
      = (List.range ps.length).filter (fun q => q != i) := by
    have hid : (Prod.fst ∘ fun q : Nat => (q, ps.getD q [])) = id := rfl
    rw [List.map_map, hid, List.map_id]
  have hnd : ((((List.range ps.length).filter (fun q => q != i)).map
      (fun q => (q, ps.getD q []))).map Prod.fst).Nodup := by
    rw [hkeys]; exact hnodmask
  have hlook : ∀ q,
      ((order.foldl (fun g pr => Fec.addPacket g pr.1 pr.2) []).lookup q)
        = if q ∈ (List.range ps.length).filter (fun q => q != i)
            then some (ps.getD q []) else none := by
    intro q
    rw [Fec.lookup_group_built _ order hnd hperm q, Fec.lookup_map_key]
  have hmiss : (List.range (Fec.encodeRedundancy gid ps).k).filter
      (fun q => (((order.foldl (fun g pr => Fec.addPacket g pr.1 pr.2)
        []).lookup q)).isNone) = [i] := by
    show (List.range ps.length).filter _ = [i]
    have hcong : ∀ q ∈ List.range ps.length,
        ((((order.foldl (fun g pr => Fec.addPacket g pr.1 pr.2)
          []).lookup q)).isNone) = (q == i) := by
      intro q hq
      rw [hlook q]
      by_cases hqi : q = i
      · subst hqi
        have hnm : q ∉ (List.range ps.length).filter (fun r => r != q) := by
          simp [List.mem_filter]
        simp [hnm]
      · have hm : q ∈ (List.range ps.length).filter (fun r => r != i) := by
          simp [List.mem_filter, hq, hqi]
        simp [hm, hqi]
    rw [List.filter_congr hcong, Fec.filter_beq_range, if_pos hi]
  have hpresent : (List.range (Fec.encodeRedundancy gid ps).k).filterMap
      (fun q => (order.foldl (fun g pr => Fec.addPacket g pr.1 pr.2) []).lookup q)
      = (((List.range ps.length).filter (fun q => q != i)).map
          (fun q => ps.getD q [])) := by
    show (List.range ps.length).filterMap _ = _
    have hfun : (fun q =>
        (order.foldl (fun g pr => Fec.addPacket g pr.1 pr.2) []).lookup q)
        = fun q => if q ∈ (List.range ps.length).filter (fun r => r != i)
            then some (ps.getD q []) else none := funext hlook
    rw [hfun, Fec.filterMap_if_mem, Fec.filter_mem_filter]
  rw [Fec.addRedundancyPacket_single _ _ hmiss, hpresent]
  have hlen : ((Fec.encodeRedundancy gid ps).lenTable).getD i 0
      = (ps.getD i []).length := by
    show (ps.map List.length).getD i 0 = _
    exact Fec.getD_map_length ps i hi
  rw [hlen]
  have hfold : ((((List.range ps.length).filter (fun q => q != i)).map
      (fun q => ps.getD q [])).foldl Fec.xorBytes
        (Fec.encodeRedundancy gid ps).parityPayload)
      = Fec.xorBytes (ps.getD i [])
          (List.replicate (Fec.xorSum (((List.range ps.length).filter
            (fun q => q != i)).map (fun q => ps.getD q []))).length 0) := by
    rw [Fec.foldl_xorBytes]
    show Fec.xorBytes (Fec.xorSum ps) _ = _
    rw [Fec.xorSum_split ps hi, Fec.xorBytes_assoc, Fec.xorBytes_self]
  rw [hfold, Fec.take_xorBytes_replicate]

/-- Closed-form witness for `fec_single_loss_recovered`: a concrete group of
three data packets with the middle one dropped is recovered exactly. -/
theorem fec_single_loss_recovered_witness :
    (1 < ([[1, 2], [3], [4, 5, 6]] : List (List Nat)).length) ∧
    Fec.addRedundancyPacket
      ((((List.range 3).filter (fun q => q != 1)).map
          (fun q => (q, ([[1, 2], [3], [4, 5, 6]] : List (List Nat)).getD q []))).foldl
        (fun g pr => Fec.addPacket g pr.1 pr.2) [])
      (Fec.encodeRedundancy 7 [[1, 2], [3], [4, 5, 6]])
    = (true, [(1, [3])]) := by
  refine ⟨by decide, ?_⟩
  exact fec_single_loss_recovered [[1, 2], [3], [4, 5, 6]] 1 7 (by decide)
    _ (List.Perm.refl _)

/-- C2: a single-redundancy FEC group from which two or more data slots are
missing is never reported as recovered: every call to `AddRedundancyPacket`
on such a group state returns `(false, [])`. -/
theorem fec_double_loss_never_recovered (g : Fec.GroupData)
    (p : Fec.RedundancyPacket)
    (h : 2 ≤ ((List.range p.k).filter (fun q => (g.lookup q).isNone)).length) :
    Fec.addRedundancyPacket g p = (false, []) :=
  Fec.addRedundancyPacket_not_single g p (by omega)

/-- Closed-form witness for `fec_double_loss_never_recovered`: a group of
three data slots with only slot 0 present (two slots missing) is not
recovered. -/
theorem fec_double_loss_never_recovered_witness :
    (2 ≤ ((List.range 3).filter
      (fun q => (([(0, [7])] : Fec.GroupData).lookup q).isNone)).length) ∧
    Fec.addRedundancyPacket [(0, [7])]
      { groupId := 0, parityIndex := 0, k := 3, r := 1,
        lenTable := [1, 1, 1], parityPayload := [9] } = (false, []) := by
  refine ⟨by decide, ?_⟩
  exact fec_double_loss_never_recovered _ _ (by decide)

namespace Server

theorem addPacketCalls_cons_none (s s' : StreamFec) (buf : List Nat)
    (bufs : List (List Nat)) (h : streamFecStep s buf = (s', none)) :
    addPacketCalls s (buf :: bufs) = addPacketCalls s' bufs := by
  rw [addPacketCalls, h]

theorem addPacketCalls_cons_some (s s' : StreamFec) (buf pl : List Nat)
    (pid gid : Nat) (bufs : List (List Nat))
    (h : streamFecStep s buf = (s', some (pl, pid, gid))) :
    addPacketCalls s (buf :: bufs) = (pid, gid) :: addPacketCalls s' bufs := by
  rw [addPacketCalls, h]

theorem addPacketCalls_closed_form :
    ∀ (bufs : List (List Nat)) (j : Nat),
      addPacketCalls ⟨j % 10, j / 10⟩ bufs
        = (List.range (dataCount bufs)).map
            (fun t => ((j + t) % 10, (j + t) / 10))
  | [], j => by simp [addPacketCalls, dataCount]
  | buf :: bufs, j => by
    rcases hroute : classifyBuffer buf with _ | _ | _
    · rw [addPacketCalls_cons_none ⟨j % 10, j / 10⟩ ⟨j % 10, j / 10⟩ buf bufs
        (by simp [streamFecStep, hroute])]
      rw [addPacketCalls_closed_form bufs j]
      have hd : dataCount (buf :: bufs) = dataCount bufs := by
        simp [dataCount, List.filter_cons, hroute]
      rw [hd]
    · have hnext : streamFecStep ⟨j % 10, j / 10⟩ buf
          = (⟨(j + 1) % 10, (j + 1) / 10⟩, some (buf, j % 10, j / 10)) := by
        simp only [streamFecStep, hroute]
        by_cases h : 10 ≤ j % 10 + 1
        · have h9 : j % 10 = 9 := by omega
          simp only [h, if_true]
          have h1 : (j + 1) % 10 = 0 := by omega
          have h2 : (j + 1) / 10 = j / 10 + 1 := by omega
          rw [h1, h2]
        · simp only [h, if_false]
          have h1 : (j + 1) % 10 = j % 10 + 1 := by omega
          have h2 : (j + 1) / 10 = j / 10 := by omega
          rw [h1, h2]
      rw [addPacketCalls_cons_some _ _ buf buf _ _ bufs hnext]
      rw [addPacketCalls_closed_form bufs (j + 1)]
      have hd : dataCount (buf :: bufs) = dataCount bufs + 1 := by
        simp [dataCount, List.filter_cons, hroute]
      rw [hd, List.range_succ_eq_map, List.map_cons, List.map_map]
      have hc : ((fun t => ((j + t) % 10, (j + t) / 10)) ∘ Nat.succ)
          = fun t => ((j + 1 + t) % 10, (j + 1 + t) / 10) := by
        funext t
        simp only [Function.comp]
        have hjt : j + Nat.succ t = j + 1 + t := by omega
        rw [hjt]
      rw [hc]
      simp
    · rw [addPacketCalls_cons_none ⟨j % 10, j / 10⟩ ⟨j % 10, j / 10⟩ buf bufs
        (by simp [streamFecStep, hroute])]
      rw [addPacketCalls_closed_form bufs j]
      have hd : dataCount (buf :: bufs) = dataCount bufs := by
        simp [dataCount, List.filter_cons, hroute]
      rw [hd]

end Server

/-- C3: a buffer received on a server stream is routed to
`FECDecoder.AddRedundancyPacket` iff it is at least 11 bytes long and its
first two bytes are the `0xFE 0xC0` type marker; every other non-empty
buffer is processed as a data packet (bytes counted and routed to
`FECDecoder.AddPacket`). -/
theorem buffer_routing (buf : List Nat) :
    (Server.classifyBuffer buf = Server.Route.repair ↔
      11 ≤ buf.length ∧ buf.getD 0 0 = 0xFE ∧ buf.getD 1 0 = 0xC0) ∧
    (buf ≠ [] →
      ¬(11 ≤ buf.length ∧ buf.getD 0 0 = 0xFE ∧ buf.getD 1 0 = 0xC0) →
      Server.classifyBuffer buf = Server.Route.data) := by
  constructor
  · constructor
    · intro h
      unfold Server.classifyBuffer at h
      by_cases h0 : 0 < buf.length
      · rw [if_pos h0] at h
        by_cases hc : 11 ≤ buf.length ∧ buf.getD 0 0 = 0xFE ∧ buf.getD 1 0 = 0xC0
        · exact hc
        · rw [if_neg hc] at h
          exact absurd h (by simp)
      · rw [if_neg h0] at h
        exact absurd h (by simp)
    · intro hc
      unfold Server.classifyBuffer
      have h0 : 0 < buf.length := by omega
      rw [if_pos h0, if_pos hc]
  · intro hne hc
    unfold Server.classifyBuffer
    have h0 : 0 < buf.length := List.length_pos.mpr hne
    rw [if_pos h0, if_neg hc]

/-- Closed-form witness for `buffer_routing`: an 11-byte marker-led buffer is
routed to the repair path and a short non-empty buffer to the data path. -/
theorem buffer_routing_witness :
    Server.classifyBuffer [0xFE, 0xC0, 2, 3, 4, 5, 6, 7, 8, 9, 10]
      = Server.Route.repair ∧
    Server.classifyBuffer [0xFE, 0xC0, 2] = Server.Route.data := by
  constructor
  · exact (buffer_routing [0xFE, 0xC0, 2, 3, 4, 5, 6, 7, 8, 9, 10]).1.mpr
      (by decide)
  · exact (buffer_routing [0xFE, 0xC0, 2]).2 (by decide) (by decide)

/-- C4 (amended): the receive path records each data packet's arrival in the
FEC decoder under identifiers assigned from arrival order with a fixed group
size of 10 — the `j`-th data-classified buffer of a stream is passed to
`AddPacket` as packet `j % 10` of group `j / 10` — independent of any
identifiers carried in the buffer's wire framing. -/
theorem addPacket_ids_from_arrival_order (bufs : List (List Nat)) :
    Server.addPacketCalls Server.streamFecInit bufs
      = (List.range (Server.dataCount bufs)).map (fun j => (j % 10, j / 10)) := by
  have h0 : Server.streamFecInit = (⟨0 % 10, 0 / 10⟩ : Server.StreamFec) := rfl
  rw [h0, Server.addPacketCalls_closed_form bufs 0]
  simp

/-- C4 fails as stated on the code: `handleStream` assigns
`packet_id`/`group_id` from arrival order (server.go:146-151) and never
parses the buffer for them, so a first-arriving data buffer whose §6 framing
carries group_id 5 and packet_index 3 is recorded under packet 0 of
group 0. -/
theorem addPacket_ids_counterexample :
    Server.dataFrameGroupId [0, 0, 0, 0, 0, 0, 0, 5, 0, 3, 99] = 5 ∧
    Server.dataFramePacketIndex [0, 0, 0, 0, 0, 0, 0, 5, 0, 3, 99] = 3 ∧
    Server.classifyBuffer [0, 0, 0, 0, 0, 0, 0, 5, 0, 3, 99]
      = Server.Route.data ∧
    Server.addPacketCalls Server.streamFecInit
      [[0, 0, 0, 0, 0, 0, 0, 5, 0, 3, 99]] = [(0, 0)] ∧
    ((0 : Nat), (0 : Nat)) ≠ ((3 : Nat), (5 : Nat)) := by
  refine ⟨by decide, by decide, by decide, ?_, by decide⟩
  rfl

/-- C9: over every sequence of buffers processed on one stream, the
`group_id` values passed to `AddPacket` are non-decreasing, every
`packet_id` stays in 0..9, and consecutive calls either advance `packet_id`
by one within the same group or — after the tenth data packet of a group —
wrap it to 0 while incrementing `group_id` by one. -/
theorem addPacket_ids_invariant (bufs : List (List Nat)) :
    ((Server.addPacketCalls Server.streamFecInit bufs).map Prod.snd).Chain'
        (· ≤ ·) ∧
    (∀ c ∈ Server.addPacketCalls Server.streamFecInit bufs, c.1 < 10) ∧
    (Server.addPacketCalls Server.streamFecInit bufs).Chain'
      (fun c d => (c.1 = 9 → d.1 = 0 ∧ d.2 = c.2 + 1) ∧
                  (c.1 < 9 → d.1 = c.1 + 1 ∧ d.2 = c.2)) := by
  have h0 : Server.streamFecInit = (⟨0 % 10, 0 / 10⟩ : Server.StreamFec) := rfl
  have hform : Server.addPacketCalls Server.streamFecInit bufs
      = (List.range (Server.dataCount bufs)).map (fun t => (t % 10, t / 10)) := by
    rw [h0, Server.addPacketCalls_closed_form bufs 0]
    simp
  rw [hform]
  refine ⟨?_, ?_, ?_⟩
  · rw [List.map_map]
    rw [List.chain'_map]
    rcases hd : Server.dataCount bufs with _ | n
    · simp
    · rw [List.chain'_range_succ]
      intro m _
      simp only [Function.comp]
      omega
  · intro c hc
    rcases List.mem_map.mp hc with ⟨t, _, ht⟩
    rw [← ht]
    simp only
    omega
  · rw [List.chain'_map]
    rcases hd : Server.dataCount bufs with _ | n
    · simp
    · rw [List.chain'_range_succ]
      intro m _
      simp only
      constructor
      · intro h9
        constructor
        · omega
        · omega
      · intro h9
        constructor
        · omega
        · omega

namespace Server

theorem metricsStep_mono (m : Metrics) (e : Event) :
    m.connections ≤ (metricsStep m e).connections ∧
    m.streams ≤ (metricsStep m e).streams ∧
    m.bytes ≤ (metricsStep m e).bytes ∧
    m.errors ≤ (metricsStep m e).errors := by
  cases e with
  | acceptOk => simp [metricsStep]
  | acceptErr => simp [metricsStep]
  | streamOk => simp [metricsStep]
  | streamErr => simp [metricsStep]
  | readRepair recovered => simp [metricsStep]
  | readData n => simp [metricsStep]
  | readErr eof => cases eof <;> simp [metricsStep]

end Server

/-- C8: the server's metric counters (Connections, Streams, Bytes, Errors)
are monotonic: over every sequence of accept, stream, read, and error
events, no counter's value ever decreases. -/
theorem server_metrics_monotone (m : Server.Metrics)
    (evs : List Server.Event) :
    m.connections ≤ (evs.foldl Server.metricsStep m).connections ∧
    m.streams ≤ (evs.foldl Server.metricsStep m).streams ∧
    m.bytes ≤ (evs.foldl Server.metricsStep m).bytes ∧
    m.errors ≤ (evs.foldl Server.metricsStep m).errors := by
  induction evs generalizing m with
  | nil => exact ⟨le_refl _, le_refl _, le_refl _, le_refl _⟩
  | cons e evs ih =>
    have h1 := Server.metricsStep_mono m e
    have h2 := ih (Server.metricsStep m e)
    rw [List.foldl_cons]
    exact ⟨le_trans h1.1 h2.1, le_trans h1.2.1 h2.2.1,
      le_trans h1.2.2.1 h2.2.2.1, le_trans h1.2.2.2 h2.2.2.2⟩

namespace Bbr

theorem phaseStep_no_startup (p q : Phase) (h : phaseStep p q = true) :
    q ≠ Phase.startup := by
  intro hq
  subst hq
  cases p <;> simp [phaseStep] at h

end Bbr

/-- C6: in the congestion controller's phase machine, once Startup is left it
is never re-entered: from every phase other than Startup, no sequence of
transitions reaches Startup. -/
theorem startup_never_reentered (p q : Bbr.Phase) (h : Bbr.Reaches p q)
    (hp : p ≠ Bbr.Phase.startup) : q ≠ Bbr.Phase.startup := by
  induction h with
  | refl p => exact hp
  | step hstep _ ih => exact ih (Bbr.phaseStep_no_startup _ _ hstep)

/-- Closed-form witness for `startup_never_reentered`: from Drain, the
reachable phase ProbeRTT is not Startup. -/
theorem startup_never_reentered_witness :
    Bbr.Reaches Bbr.Phase.drain Bbr.Phase.probeRTT ∧
    Bbr.Phase.probeRTT ≠ Bbr.Phase.startup := by
  have hreach : Bbr.Reaches Bbr.Phase.drain Bbr.Phase.probeRTT :=
    @Bbr.Reaches.step Bbr.Phase.drain Bbr.Phase.probeBW Bbr.Phase.probeRTT
      (by decide)
      (@Bbr.Reaches.step Bbr.Phase.probeBW Bbr.Phase.probeRTT
        Bbr.Phase.probeRTT (by decide) (Bbr.Reaches.refl _))
  exact ⟨hreach, startup_never_reentered _ _ hreach (by decide)⟩

/-- C7: the server runs `CleanupGroups` on a one-second ticker, and each
invocation evicts every group older than the retention window regardless of
its completion state: every group surviving an invocation at time `now` has
age at most the window, and so has every group in the table maintained by
the server's cleanup loop after any number of ticks, whatever groups arrived
in between. -/
theorem cleanup_bounds_group_age
    (window now : Nat) (tbl : List (Nat × Fec.GroupEntry))
    (arrivals : Nat → List (Nat × Fec.GroupEntry)) (n : Nat) :
    Server.cleanupIntervalSeconds = 1 ∧
    (∀ g ∈ Fec.cleanupGroups window now tbl, now - g.2.createdAt ≤ window) ∧
    (∀ g ∈ Server.cleanupRun window arrivals n,
      n * Server.cleanupIntervalSeconds - g.2.createdAt ≤ window) := by
  refine ⟨rfl, ?_, ?_⟩
  · intro g hg
    have h := (List.mem_filter.mp hg).2
    simpa using h
  · cases n with
    | zero =>
      intro g hg
      simp [Server.cleanupRun] at hg
    | succ k =>
      intro g hg
      have h := (List.mem_filter.mp hg).2
      simpa using h

/-- Closed-form witness for `cleanup_bounds_group_age`: a completed group
created at time 0 surviving cleanup at time 3 with window 5 is within the
window. -/
theorem cleanup_bounds_group_age_witness :
    ((0, ⟨0, [], none, true⟩) ∈
      Fec.cleanupGroups 5 3 [(0, ⟨0, [], none, true⟩)]) ∧
    3 - (0 : Nat) ≤ 5 := by
  refine ⟨by decide, ?_⟩
  exact (cleanup_bounds_group_age 5 3 [(0, ⟨0, [], none, true⟩)]
    (fun _ => []) 0).2.1 (0, ⟨0, [], none, true⟩) (by decide)

/-- C5 fails as stated on the code: the CLI path performs no validation, so
`main` with congestion control "foo" (unknown) and FEC redundancy 1/2
(outside [0.05, 0.20]) dispatches straight to `server.Run` — a server run
begins with the invalid configuration instead of failing fatally. -/
theorem config_validation_counterexample :
    Cli.mainDispatch
      { version := false, mode := "server", listScenarios := false,
        listProfiles := false, scenario := "", networkProfile := "",
        cc := "foo", fecEnabled := true, fecEnabledAlias := false,
        fecRate := 1 / 2, fecRedundancyAlias := 1 / 10 }
      = Cli.Outcome.runServer
          { mode := "server", congestionControl := "foo",
            fecEnabled := true, fecRedundancy := 1 / 2 } ∧
    Cli.validCC "foo" = false ∧
    Cli.redundancyInRange (1 / 2) = false := by
  refine ⟨?_, by simp [Cli.validCC], ?_⟩
  · simp [Cli.mainDispatch, Cli.buildConfig]
  · have h : ¬ ((1 : ℚ) / 2 ≤ 1 / 5) := by norm_num
    unfold Cli.redundancyInRange
    rw [decide_eq_false h, Bool.and_false]

/-- C5 (amended): the GUI API's create-test path rejects — answering HTTP 400
without starting a session — every configuration whose congestion-control
algorithm is not in {cubic, bbr, bbrv2, bbrv3, reno} or whose redundancy
fraction lies outside [0.05, 0.20]; the CLI path performs no such validation
and dispatches the requested server run regardless of those values. -/
theorem config_validation_amended
    (f : Cli.Flags) (hv : f.version = false) (hs1 : f.listScenarios = false)
    (hs2 : f.listProfiles = false) (hsc : f.scenario = "")
    (hnp : f.networkProfile = "") (hm : f.mode = "server")
    (cc : String) (q : ℚ)
    (hbad : Cli.validCC cc = false ∨ Cli.redundancyInRange q = false) :
    Cli.mainDispatch f = Cli.Outcome.runServer (Cli.buildConfig f) ∧
    Gui.handleCreateTestDecision cc q = Gui.CreateTestResult.badRequest := by
  constructor
  · unfold Cli.mainDispatch
    rw [hv, hs1, hs2, hsc, hnp]
    have hmode : (Cli.buildConfig f).mode = "server" := hm
    simp [hmode]
  · unfold Gui.handleCreateTestDecision Gui.validateConfig
    rcases hbad with hb | hb
    · rw [hb, Bool.false_and]
      rfl
    · rw [hb, Bool.and_false]
      rfl

/-- Closed-form witness for `config_validation_amended`: the concrete invalid
flags of the counterexample start the server on the CLI path while being
rejected on the GUI path. -/
theorem config_validation_amended_witness :
    Cli.mainDispatch
      { version := false, mode := "server", listScenarios := false,
        listProfiles := false, scenario := "", networkProfile := "",
        cc := "foo", fecEnabled := true, fecEnabledAlias := false,
        fecRate := 1 / 2, fecRedundancyAlias := 1 / 10 }
      = Cli.Outcome.runServer (Cli.buildConfig
          { version := false, mode := "server", listScenarios := false,
            listProfiles := false, scenario := "", networkProfile := "",
            cc := "foo", fecEnabled := true, fecEnabledAlias := false,
            fecRate := 1 / 2, fecRedundancyAlias := 1 / 10 }) ∧
    Gui.handleCreateTestDecision "foo" (1 / 2)
      = Gui.CreateTestResult.badRequest := by
  exact config_validation_amended _ rfl rfl rfl rfl rfl rfl "foo" (1 / 2)
    (Or.inl (by simp [Cli.validCC]))

namespace Gui

theorem lookup_map_update (testID : String) (f : Session → Session) :
    ∀ (tbl : List (String × Session)) (q : String),
      (tbl.map (fun p => if p.1 = testID then (p.1, f p.2) else p)).lookup q
        = if q = testID then (tbl.lookup testID).map f else tbl.lookup q
  | [], q => by
    by_cases h : q = testID <;> simp [List.lookup, h]
  | (k, s) :: tbl, q => by
    simp only [List.map_cons]
    by_cases hk : k = testID
    · subst hk
      rw [show (if (k, s).1 = k then ((k, s).1, f (k, s).2) else (k, s))
          = (k, f s) by simp]
      by_cases hq : q = k
      · subst hq
        simp [List.lookup]
      · have hb : (q == k) = false := by simp [hq]
        simp [List.lookup, hb, hq, lookup_map_update k f tbl q]
    · rw [show (if (k, s).1 = testID then ((k, s).1, f (k, s).2) else (k, s))
          = (k, s) by simp [hk]]
      have hkt : ¬ testID = k := fun h => hk h.symm
      have hktb : (testID == k) = false := by simp [hkt]
      by_cases hq : q = k
      · subst hq
        have hqt : ¬ q = testID := hk
        simp [List.lookup, hqt]
      · have hb : (q == k) = false := by simp [hq]
        by_cases hqt : q = testID
        · subst hqt
          simp [List.lookup, hb, lookup_map_update q f tbl q]
        · simp [List.lookup, hb, hqt, lookup_map_update testID f tbl q]

theorem stopTest_eq_none (now : Nat) (tbl : List (String × Session))
    (testID : String) (hl : tbl.lookup testID = none) :
    stopTest now tbl testID = (tbl, some ("test not found: " ++ testID)) := by
  unfold stopTest
  rw [hl]

theorem stopTest_eq_some (now : Nat) (tbl : List (String × Session))
    (testID : String) (s : Session) (hl : tbl.lookup testID = some s) :
    stopTest now tbl testID
      = if s.status ≠ "running" then
          (tbl, some ("test is not running: " ++ testID))
        else
          (tbl.map (fun p => if p.1 = testID then
              (p.1, { status := "stopped", endTime := some now,
                      logs := addLog p.2.logs "Test stopped by user" }) else p),
           none) := by
  unfold stopTest
  rw [hl]

end Gui

/-- C10: `StopTest` is atomic on error: when `testID` names no session or a
session that is not running, it returns an error and leaves the whole table
— every session's status, end time, and logs — unchanged; only on a running
session does it return no error, set that session's status to "stopped",
record the end time, append the stop log entry, and leave all other sessions
unchanged. -/
theorem stopTest_atomic (now : Nat) (tbl : List (String × Gui.Session))
    (testID : String) :
    ((tbl.lookup testID = none ∨
        ∃ s, tbl.lookup testID = some s ∧ s.status ≠ "running") →
      (Gui.stopTest now tbl testID).1 = tbl ∧
      ((Gui.stopTest now tbl testID).2).isSome = true) ∧
    (∀ s, tbl.lookup testID = some s → s.status = "running" →
      (Gui.stopTest now tbl testID).2 = none ∧
      ((Gui.stopTest now tbl testID).1).lookup testID
        = some { status := "stopped", endTime := some now,
                 logs := Gui.addLog s.logs "Test stopped by user" } ∧
      ∀ q, q ≠ testID →
        ((Gui.stopTest now tbl testID).1).lookup q = tbl.lookup q) := by
  constructor
  · intro herr
    rcases hl : tbl.lookup testID with _ | s
    · rw [Gui.stopTest_eq_none now tbl testID hl]
      exact ⟨rfl, rfl⟩
    · rcases herr with hnone | ⟨s', hs', hst'⟩
      · rw [hl] at hnone
        exact absurd hnone (by simp)
      · rw [hl] at hs'
        have hss : s = s' := by
          injection hs'
        subst hss
        rw [Gui.stopTest_eq_some now tbl testID s hl, if_pos hst']
        exact ⟨rfl, rfl⟩
  · intro s hl hrun
    have hcond : ¬ s.status ≠ "running" := by
      rw [hrun]
      exact fun h => h rfl
    rw [Gui.stopTest_eq_some now tbl testID s hl, if_neg hcond]
    refine ⟨rfl, ?_, ?_⟩
    · rw [Gui.lookup_map_update testID
        (fun t : Gui.Session =>
          { status := "stopped", endTime := some now,
            logs := Gui.addLog t.logs "Test stopped by user" }) tbl testID,
        if_pos rfl, hl]
      rfl
    · intro q hq
      rw [Gui.lookup_map_update testID
        (fun t : Gui.Session =>
          { status := "stopped", endTime := some now,
            logs := Gui.addLog t.logs "Test stopped by user" }) tbl q,
        if_neg hq]

/-- Closed-form witness for `stopTest_atomic`: stopping a concrete running
session returns no error, marks it stopped with the end time recorded. -/
theorem stopTest_atomic_witness :
    (([("t1", ⟨"running", none, []⟩)] :
        List (String × Gui.Session)).lookup "t1"
      = some ⟨"running", none, []⟩) ∧
    (Gui.stopTest 9 [("t1", ⟨"running", none, []⟩)] "t1").2 = none ∧
    ((Gui.stopTest 9 [("t1", ⟨"running", none, []⟩)] "t1").1).lookup "t1"
      = some ⟨"stopped", some 9, Gui.addLog [] "Test stopped by user"⟩ := by
  have h := (stopTest_atomic 9 [("t1", ⟨"running", none, []⟩)] "t1").2
    ⟨"running", none, []⟩ (by simp [List.lookup]) rfl
  exact ⟨by simp [List.lookup], h.1, h.2.1⟩

end QuicTest
